import Mathlib

/-!
Verification of the authentication/session core of the `maearth-demo`
repository (an AT Protocol OAuth relying party written in TypeScript),
via a shallow embedding of the source into Lean.

Modelling conventions:
* JavaScript strings are modelled as `List Char`.
* The HMAC-SHA256 digest from `node:crypto` (an external collaborator)
  is passed as an explicit function parameter `hmac : List Char → List Char`;
  the code under verification is the string plumbing around it.
* `Date.now()` timestamps are `Int` (milliseconds) and are passed
  explicitly; random values (session IDs, CSRF nonces, UUIDs) are
  likewise explicit parameters, since `crypto.randomBytes`/`randomUUID`
  are external.
* The process-wide `Map`s are modelled as association lists where
  `set` conses the new binding and drops stale ones, `delete` filters,
  and `get` is `List.lookup`.
* All definitions are executable, so concrete runs can be checked with
  `decide` / `rfl`.
-/

/-- JS `String.prototype.lastIndexOf` restricted to a one-character
needle, on the `List Char` model: the index of the last occurrence. -/
def lastIndexOf : List Char → Char → Option Nat
  | [], _ => none
  | a :: rest, c =>
    match lastIndexOf rest c with
    | some j => some (j + 1)
    | none => if a = c then some 0 else none

/-- JS `String.prototype.split(sep)` for a one-character separator:
splits into the (always non-empty) list of separated segments. -/
def splitOnChar (sep : Char) : List Char → List (List Char)
  | [] => [[]]
  | a :: rest =>
    match splitOnChar sep rest with
    | [] => [[]]
    | p :: ps => if a = sep then [] :: p :: ps else (a :: p) :: ps

-- ---------------------------------------------------------------------------
-- src/lib/session.ts
-- ---------------------------------------------------------------------------

/-- `sign` from `src/lib/session.ts`:
`sessionId + "." + hmacSha256(SESSION_SECRET, sessionId)`, the digest
being base64url-encoded.  The digest is the parameter `hmac`. -/
def sign (hmac : List Char → List Char) (sessionId : List Char) : List Char :=
  sessionId ++ '.' :: hmac sessionId

/-- `verifySignedId` from `src/lib/session.ts`: split at the *last* dot,
recompute the digest over the id part, compare lengths first and then
contents (`crypto.timingSafeEqual`), and return the raw id on success;
`null` (here `none`) on any failure, without throwing. -/
def verifySignedId (hmac : List Char → List Char) (signed : List Char) :
    Option (List Char) :=
  match lastIndexOf signed '.' with
  | none => none
  | some dotIndex =>
    let sessionId := signed.take dotIndex
    let providedHmac := signed.drop (dotIndex + 1)
    let expectedHmac := hmac sessionId
    if providedHmac.length = expectedHmac.length ∧ providedHmac = expectedHmac then
      some sessionId
    else
      none

/-- `OAuthSession` interface from `src/lib/session.ts` (the JWK is kept
as its serialised form, the key material itself being external). -/
structure OAuthSession where
  state : String
  codeVerifier : String
  dpopPrivateJwk : String
  tokenEndpoint : String
  email : Option String := none
  expectedDid : Option String := none
  expectedPdsUrl : Option String := none
deriving DecidableEq

/-- `UserSession` interface from `src/lib/session.ts`, lines 18-22:
exactly the fields `userDid`, `userHandle`, `createdAt`. -/
structure UserSession where
  userDid : String
  userHandle : String
  createdAt : Int
deriving DecidableEq

/-- The tagged union stored in the `sessions` map
(`{ type: "oauth" | "user", data, expiresAt }`). -/
inductive SessionData where
  | oauth (data : OAuthSession) (expiresAt : Int)
  | user (data : UserSession) (expiresAt : Int)
deriving DecidableEq

/-- The process-wide `sessions` map, keyed by the raw (unsigned) id. -/
abbrev SessionStore := List (List Char × SessionData)

def OAUTH_TTL_MS : Int := 10 * 60 * 1000

def USER_TTL_MS : Int := 24 * 60 * 60 * 1000

/-- `sessions.set(id, v)`. -/
def storeSet (k : List Char) (v : SessionData) (s : SessionStore) : SessionStore :=
  (k, v) :: s.filter (fun p => p.1 ≠ k)

/-- `createOAuthSession` from `src/lib/session.ts`: mint the record under
the freshly drawn raw id (`crypto.randomBytes(32)`, here the explicit
parameter `sessionId`), with a 10-minute TTL, and return the signed id
together with the updated store. -/
def createOAuthSession (hmac : List Char → List Char) (store : SessionStore)
    (sessionId : List Char) (now : Int) (data : OAuthSession) :
    List Char × SessionStore :=
  (sign hmac sessionId,
   storeSet sessionId (.oauth data (now + OAUTH_TTL_MS)) store)

/-- `getOAuthSession` from `src/lib/session.ts`, lines 89-96: verify the
signature, look up by raw id, and require the record to exist, to carry
the `"oauth"` tag and to be unexpired. -/
def getOAuthSession (hmac : List Char → List Char) (store : SessionStore)
    (now : Int) (signedId : List Char) : Option OAuthSession :=
  match verifySignedId hmac signedId with
  | none => none
  | some sessionId =>
    match store.lookup sessionId with
    | some (.oauth data expiresAt) => if expiresAt ≤ now then none else some data
    | _ => none

/-- `deleteOAuthSession` from `src/lib/session.ts`, lines 98-101: verify
the signature and remove by raw id, whatever the record's kind. -/
def deleteOAuthSession (hmac : List Char → List Char) (store : SessionStore)
    (signedId : List Char) : SessionStore :=
  match verifySignedId hmac signedId with
  | some sessionId => store.filter (fun p => p.1 ≠ sessionId)
  | none => store

/-- `createUserSession` from `src/lib/session.ts`: as the OAuth variant
but with the `"user"` tag and a 24-hour TTL. -/
def createUserSession (hmac : List Char → List Char) (store : SessionStore)
    (sessionId : List Char) (now : Int) (data : UserSession) :
    List Char × SessionStore :=
  (sign hmac sessionId,
   storeSet sessionId (.user data (now + USER_TTL_MS)) store)

/-- `getUserSession` from `src/lib/session.ts`, lines 116-123. -/
def getUserSession (hmac : List Char → List Char) (store : SessionStore)
    (now : Int) (signedId : List Char) : Option UserSession :=
  match verifySignedId hmac signedId with
  | none => none
  | some sessionId =>
    match store.lookup sessionId with
    | some (.user data expiresAt) => if expiresAt ≤ now then none else some data
    | _ => none

/-- `deleteUserSession` from `src/lib/session.ts`, lines 125-128. -/
def deleteUserSession (hmac : List Char → List Char) (store : SessionStore)
    (signedId : List Char) : SessionStore :=
  match verifySignedId hmac signedId with
  | some sessionId => store.filter (fun p => p.1 ≠ sessionId)
  | none => store

-- ---------------------------------------------------------------------------
-- src/lib/csrf.ts
-- ---------------------------------------------------------------------------

/-- Base-36 digit value of a character, as accepted by JS
`parseInt(s, 36)` (case-insensitive). -/
def charToDigit36 (c : Char) : Option Nat :=
  if '0' ≤ c ∧ c ≤ '9' then some (c.toNat - '0'.toNat)
  else if 'a' ≤ c ∧ c ≤ 'z' then some (c.toNat - 'a'.toNat + 10)
  else if 'A' ≤ c ∧ c ≤ 'Z' then some (c.toNat - 'A'.toNat + 10)
  else none

/-- The base-36 digit character emitted by JS `Number.prototype.toString(36)`
(lowercase). -/
def digitChar36 (n : Nat) : Char :=
  if n < 10 then Char.ofNat ('0'.toNat + n) else Char.ofNat ('a'.toNat + n - 10)

/-- JS `n.toString(36)` for a non-negative integer (`Date.now()` is one). -/
def toBase36 (n : Nat) : List Char :=
  if _h : n < 36 then [digitChar36 n]
  else toBase36 (n / 36) ++ [digitChar36 (n % 36)]
termination_by n
decreasing_by exact Nat.div_lt_self (by omega) (by omega)

/-- The numeric value of a maximal leading run of base-36 digits;
`none` when there is no leading digit (`parseInt` returns `NaN`). -/
def parseNat36 (s : List Char) : Option Nat :=
  let ds := s.takeWhile (fun c => (charToDigit36 c).isSome)
  if ds = [] then none
  else some (ds.foldl (fun acc c => acc * 36 + ((charToDigit36 c).getD 0)) 0)

/-- JS `parseInt(s, 36)` (tokens never carry leading whitespace, so only
the optional sign is modelled); `none` stands for `NaN`. -/
def parseBase36 (s : List Char) : Option Int :=
  match s with
  | '-' :: rest => (parseNat36 rest).map (fun n => -(n : Int))
  | '+' :: rest => (parseNat36 rest).map (fun n => (n : Int))
  | _ => (parseNat36 s).map (fun n => (n : Int))

def TOKEN_MAX_AGE_MS : Int := 60 * 60 * 1000

/-- `generateCsrfToken` from `src/lib/csrf.ts`:
`timestamp(base36) + "." + randomNonce + "." + hmac(timestamp + "." + nonce)`,
with `Date.now()` and the 16 random bytes (base64url) passed explicitly. -/
def generateCsrfToken (hmac : List Char → List Char) (now : Nat)
    (random : List Char) : List Char :=
  let timestamp := toBase36 now
  let payload := timestamp ++ '.' :: random
  payload ++ '.' :: hmac payload

/-- `validateCsrfToken` from `src/lib/csrf.ts`: requires exactly 3
non-empty dot-separated parts, a matching digest (length compared first,
then contents, as with `timingSafeEqual`), a parsable base-36 timestamp
and an age of at most one hour; returns `false` otherwise, never
throwing. -/
def validateCsrfToken (hmac : List Char → List Char) (now : Int)
    (token : List Char) : Bool :=
  if token = [] then false
  else
    match splitOnChar '.' token with
    | [timestamp, random, providedHmac] =>
      if timestamp = [] ∨ random = [] ∨ providedHmac = [] then false
      else
        -- `payload = timestamp + "." + random`, `expectedHmac = hmac(payload)`,
        -- inlined below
        if (hmac (timestamp ++ '.' :: random)).length ≠ providedHmac.length then false
        else if hmac (timestamp ++ '.' :: random) ≠ providedHmac then false
        else
          match parseBase36 timestamp with
          | none => false
          | some created => if now - created > TOKEN_MAX_AGE_MS then false else true
    | _ => false

-- ---------------------------------------------------------------------------
-- src/lib/ratelimit.ts
-- ---------------------------------------------------------------------------

/-- A token bucket: `{ tokens, lastRefill }`.  The source keeps `tokens`
as a JS number, but it only ever holds integers (it starts at
`maxRequests`, gains the integer `refill` and loses 1 per grant). -/
structure Bucket where
  tokens : Int
  lastRefill : Int
deriving DecidableEq

/-- The process-wide `buckets` map. -/
abbrev RLStore := List (String × Bucket)

/-- The result object `{ allowed, retryAfter? }`. -/
structure RLResult where
  allowed : Bool
  retryAfter : Option Int := none
deriving DecidableEq

/-- `Math.ceil(windowMs / 1000)` as exact integer arithmetic
(`-((-w) fdiv 1000)` is the ceiling of `w / 1000`). -/
def ceilDiv1000 (w : Int) : Int := -((-w).fdiv 1000)

/-- The refill block of `checkRateLimit`:
`refill = Math.floor((elapsed / windowMs) * maxRequests)` (exact
rational floor, `fdiv`), add it capped at `maxRequests` and advance
`lastRefill` only when `refill > 0`. -/
def stepBucket (b : Bucket) (maxRequests windowMs now : Int) : Bucket :=
  let refill := ((now - b.lastRefill) * maxRequests).fdiv windowMs
  if 0 < refill then ⟨min maxRequests (b.tokens + refill), now⟩ else b

/-- `checkRateLimit` from `src/lib/ratelimit.ts`, lines 17-46: on first
sight of `key` the bucket starts full; after the lazy refill, a positive
balance grants the request and consumes one token, otherwise the request
is denied with `retryAfter = Math.ceil(windowMs / 1000)`.  The mutated
bucket is stored back in both cases. -/
def checkRateLimit (st : RLStore) (key : String)
    (maxRequests windowMs now : Int) : RLResult × RLStore :=
  let bucket := stepBucket ((st.lookup key).getD ⟨maxRequests, now⟩)
    maxRequests windowMs now
  if 0 < bucket.tokens then
    (⟨true, none⟩,
     (key, ⟨bucket.tokens - 1, bucket.lastRefill⟩)
       :: st.filter (fun p => p.1 ≠ key))
  else
    (⟨false, some (ceilDiv1000 windowMs)⟩,
     (key, bucket) :: st.filter (fun p => p.1 ≠ key))

/-- A sequence of `checkRateLimit` calls on one key at the given times;
returns the `allowed` flags in order and the final store. -/
def runCalls (key : String) (maxRequests windowMs : Int) :
    RLStore → List Int → List Bool × RLStore
  | st, [] => ([], st)
  | st, t :: ts =>
    let r := checkRateLimit st key maxRequests windowMs t
    let rest := runCalls key maxRequests windowMs r.2 ts
    (r.1.allowed :: rest.1, rest.2)

-- ---------------------------------------------------------------------------
-- `sanitizeForLog` from src/lib/validation.ts (claims cite it via the
-- ratelimit.ts source bundle)
-- ---------------------------------------------------------------------------

/-- `value.includes(pat)` on the list model: some drop of `s` starts with
`pat`. -/
def hasSub (pat s : List Char) : Bool :=
  (List.range (s.length + 1)).any (fun i => pat.isPrefixOf (s.drop i))

/-- `sanitizeForLog(value)`: empty stays empty; a `did:`-prefixed value
longer than 16 characters is truncated to its first 16 plus `...`; a
value containing `@` keeps only the first local-part character (JS
renders `""[0]` as `undefined` inside the template literal) plus
`***@domain` where `domain` is the second `split("@")` part; any other
value longer than 20 characters becomes first 10 + `...` + last 4;
everything else passes through. -/
def sanitizeForLog (value : List Char) : List Char :=
  if value = [] then []
  else if ("did:".toList).isPrefixOf value then
    (if 16 < value.length then value.take 16 ++ "...".toList else value)
  else if '@' ∈ value then
    -- const [local, domain] = value.split('@')
    (let parts := splitOnChar '@' value
     let localPart := parts.headD []
     let domain := (parts.drop 1).headD []
     (if localPart = [] then "undefined".toList else [localPart.headD ' '])
       ++ "***@".toList ++ domain)
  else if 20 < value.length then
    value.take 10 ++ "...".toList ++ value.drop (value.length - 4)
  else value

-- ---------------------------------------------------------------------------
-- Two-factor configuration (src/lib/twofa.ts)
-- ---------------------------------------------------------------------------

/-- The method type tags `"totp" | "email" | "passkey"`. -/
inductive TwoFactorMethod where
  | totp
  | email
  | passkey
deriving DecidableEq

/-- A per-method configuration entry, per spec §4.5:
`totp {secret, enabledAt}`, `email {address, enabledAt}`,
`passkey {enabledAt}`. -/
inductive MethodConfig where
  | totp (secret : String) (enabledAt : Int)
  | email (address : String) (enabledAt : Int)
  | passkey (enabledAt : Int)
deriving DecidableEq

/-- The `type` tag of a method entry. -/
def MethodConfig.type : MethodConfig → TwoFactorMethod
  | .totp _ _ => .totp
  | .email _ _ => .email
  | .passkey _ => .passkey

/-- `{version, defaultMethod, methods}`. -/
structure TwoFactorConfig where
  version : Nat
  defaultMethod : TwoFactorMethod
  methods : List MethodConfig
deriving DecidableEq

/-- Modelled from the spec: `removeMethod` from `src/lib/twofa.ts` — the
module itself is missing from the sources (only its tests in
`__tests__/twofa.test.ts` and its callers are present).  Per spec §4.5:
remove the matching method; if zero methods remain, return null (the
config is to be deleted entirely); if the removed method was
`defaultMethod`, the new default becomes the first remaining method in
list order, otherwise `defaultMethod` is unchanged. -/
def removeMethod (config : TwoFactorConfig) (t : TwoFactorMethod) :
    Option TwoFactorConfig :=
  match config.methods.filter (fun m => m.type ≠ t) with
  | [] => none
  | first :: rest =>
    some { config with
      methods := first :: rest,
      defaultMethod :=
        if config.defaultMethod = t then first.type
        else config.defaultMethod }

-- ---------------------------------------------------------------------------
-- `createDpopProof` from src/lib/auth.ts
-- ---------------------------------------------------------------------------

/-- A public JWK (P-256), kept as its serialised coordinates. -/
structure Jwk where
  kty : String
  crv : String
  x : String
  y : String
deriving DecidableEq

/-- The DPoP JWT header object `{alg, typ, jwk}` built by
`createDpopProof`. -/
structure DpopHeader where
  alg : String
  typ : String
  jwk : Jwk
deriving DecidableEq

/-- The DPoP JWT payload object; absent optional fields are `none`. -/
structure DpopPayload where
  jti : String
  htm : String
  htu : String
  iat : Int
  nonce : Option String
  ath : Option String
deriving DecidableEq

/-- The options object of `createDpopProof` (the private key itself is
external; only the fields the payload/header depend on are kept). -/
structure DpopOpts where
  jwk : Jwk
  method : String
  url : String
  nonce : Option String := none
  accessToken : Option String := none

/-- The header built by `createDpopProof`:
`{ alg: "ES256", typ: "dpop+jwt", jwk: opts.jwk }`. -/
def mkDpopHeader (opts : DpopOpts) : DpopHeader :=
  { alg := "ES256", typ := "dpop+jwt", jwk := opts.jwk }

/-- The payload built by `createDpopProof`: fresh `jti`
(`crypto.randomUUID()`, the explicit parameter), `htm`, `htu`, `iat`;
`nonce` and `ath` are added only when the corresponding option is truthy
(JS `if (opts.nonce)` / `if (opts.accessToken)`, so an empty string does
not count); `ath` is the base64url SHA-256 digest (`sha256b64`
parameter) of the access token. -/
def mkDpopPayload (jti : String) (iat : Int) (sha256b64 : String → String)
    (opts : DpopOpts) : DpopPayload :=
  { jti := jti, htm := opts.method, htu := opts.url, iat := iat,
    nonce := match opts.nonce with
      | some n => if n = "" then none else some n
      | none => none,
    ath := match opts.accessToken with
      | some tok => if tok = "" then none else some (sha256b64 tok)
      | none => none }

/-- `createDpopProof`: `headerB64 + "." + payloadB64` is the signing
input, and the proof is `signingInput + "." + base64url(rawSignature)`.
The JSON+base64url encoders and the ES256 signer (including the DER→raw
conversion) are external crypto primitives passed as parameters. -/
def createDpopProof (encHeader : DpopHeader → List Char)
    (encPayload : DpopPayload → List Char)
    (signB64 : List Char → List Char)
    (jti : String) (iat : Int) (sha256b64 : String → String)
    (opts : DpopOpts) : List Char :=
  (encHeader (mkDpopHeader opts)
    ++ '.' :: encPayload (mkDpopPayload jti iat sha256b64 opts))
  ++ '.' :: signB64 (encHeader (mkDpopHeader opts)
    ++ '.' :: encPayload (mkDpopPayload jti iat sha256b64 opts))

-- ---------------------------------------------------------------------------
-- The transaction POST route (src/app/api/transaction/route.ts)
-- ---------------------------------------------------------------------------

/-- JS whitespace for `String.prototype.trim` (the characters that can
occur here). -/
def isJsWhitespace (c : Char) : Bool :=
  c == ' ' || c == '\t' || c == '\n' || c == '\r'

/-- `String.prototype.trim`. -/
def jsTrim (s : List Char) : List Char :=
  ((s.dropWhile isJsWhitespace).reverse.dropWhile isJsWhitespace).reverse

def isHexDigit (c : Char) : Bool :=
  ('0' ≤ c && c ≤ '9') || ('a' ≤ c && c ≤ 'f') || ('A' ≤ c && c ≤ 'F')

/-- The route's address check `/^0x[0-9a-fA-F]{40}$/.test(to)`. -/
def validEthAddress (s : List Char) : Bool :=
  match s with
  | '0' :: 'x' :: rest => rest.length == 40 && rest.all isHexDigit
  | _ => false

/-- The parsed request body `{ to?: string, amount?: string }` (`to` is
a reserved word in Lean, hence `toAddr`). -/
structure TxBody where
  toAddr : Option (List Char) := none
  amount : Option (List Char) := none

/-- One entry of the per-DID `dailyTotals` map. -/
structure DailyEntry where
  total : Rat
  date : String
deriving DecidableEq

abbrev DailyTotals := List (String × DailyEntry)

/-- `getDailyTotal`: 0 unless an entry for today exists. -/
def getDailyTotal (today : String) (totals : DailyTotals) (did : String) :
    Rat :=
  match totals.lookup did with
  | none => 0
  | some e => if e.date ≠ today then 0 else e.total

/-- `addDailyTotal`: start a fresh entry for today, or add to today's
entry in place. -/
def addDailyTotal (today : String) (totals : DailyTotals) (did : String)
    (amount : Rat) : DailyTotals :=
  match totals.lookup did with
  | none => (did, ⟨amount, today⟩) :: totals.filter (fun p => p.1 ≠ did)
  | some e =>
    if e.date ≠ today then
      (did, ⟨amount, today⟩) :: totals.filter (fun p => p.1 ≠ did)
    else
      (did, ⟨e.total + amount, e.date⟩) :: totals.filter (fun p => p.1 ≠ did)

/-- The distinct outcomes of the transaction POST handler, in source
order: 401, 403, 429, 503, 400 (JSON), 400 (address), 400 (amount),
400 (per-transaction limit), 400 (daily limit), wallet-status
pass-through, 200. -/
inductive TxResponse where
  | notAuthenticated
  | invalidCsrf
  | tooManyTransactions (retryAfter : Option Int)
  | walletNotConfigured
  | invalidJson
  | invalidAddress
  | invalidAmount
  | txLimitExceeded
  | dailyLimitExceeded
  | walletError (status : Int)
  | success
deriving DecidableEq

/-- The request-and-environment context of one POST invocation: the
resolved session cookie, the CSRF header and secret digest, the clock,
whether the wallet service env vars are set, the JSON-parse result
(`none` = parse threw), JS `Number()` as an explicit parser
(`none` = `NaN`), today's date string, and the wallet service's
response status. -/
structure TxDeps where
  session : Option UserSession
  csrfHmac : List Char → List Char
  csrfToken : Option (List Char)
  now : Int
  walletConfigured : Bool
  body : Option TxBody
  parseNumber : List Char → Option Rat
  today : String
  walletOk : Bool
  walletStatus : Int

def RATE_LIMIT_TX : Int := 5

def RATE_LIMIT_WINDOW_MS : Int := 60 * 1000

def MAX_TX_AMOUNT : Rat := 1 / 10

def MAX_DAILY_AMOUNT : Rat := 1

/-- The transaction `POST` handler: authentication, CSRF, per-user rate
limit (key `tx:<did>`), wallet configuration, body parse, address and
amount validation, per-transaction and daily limits, wallet call; the
daily total is increased only after the wallet responds ok.  Amounts are
exact rationals standing for the JS numbers compared against 0.1/1.0. -/
def txPOST (deps : TxDeps) (rl : RLStore) (totals : DailyTotals) :
    TxResponse × RLStore × DailyTotals :=
  match deps.session with
  | none => (.notAuthenticated, rl, totals)
  | some session =>
    match deps.csrfToken with
    | none => (.invalidCsrf, rl, totals)
    | some tok =>
      if validateCsrfToken deps.csrfHmac deps.now tok = false then
        (.invalidCsrf, rl, totals)
      else
        match checkRateLimit rl ("tx:" ++ session.userDid) RATE_LIMIT_TX
            RATE_LIMIT_WINDOW_MS deps.now with
        | (res, rl') =>
          if res.allowed = false then
            (.tooManyTransactions res.retryAfter, rl', totals)
          else if deps.walletConfigured = false then
            (.walletNotConfigured, rl', totals)
          else
            match deps.body with
            | none => (.invalidJson, rl', totals)
            | some body =>
              -- const to = (body.to || "").trim()
              if jsTrim (body.toAddr.getD []) = []
                  ∨ validEthAddress (jsTrim (body.toAddr.getD [])) = false then
                (.invalidAddress, rl', totals)
              else
                -- const amount = (body.amount || "0").trim()
                match deps.parseNumber (jsTrim
                  (if body.amount.getD [] = [] then ['0']
                   else body.amount.getD [])) with
                | none => (.invalidAmount, rl', totals)
                | some amountNum =>
                  if amountNum < 0 then (.invalidAmount, rl', totals)
                  else if MAX_TX_AMOUNT < amountNum then
                    (.txLimitExceeded, rl', totals)
                  else if MAX_DAILY_AMOUNT
                      < getDailyTotal deps.today totals session.userDid
                        + amountNum then
                    (.dailyLimitExceeded, rl', totals)
                  else if deps.walletOk then
                    (.success, rl',
                     addDailyTotal deps.today totals session.userDid amountNum)
                  else
                    (.walletError deps.walletStatus, rl', totals)

-- ---------------------------------------------------------------------------
-- Concrete instances used by the witnesses
-- ---------------------------------------------------------------------------

/-- A concrete JWK. -/
def jwkW : Jwk := { kty := "EC", crv := "P-256", x := "x1", y := "y1" }

/-- Concrete DPoP options carrying a non-empty nonce and no access
token. -/
def dpopOptsW : DpopOpts :=
  { jwk := jwkW, method := "POST", url := "https://example.com/token",
    nonce := some "n1" }

/-- Concrete stand-ins for the base64url encoders and the signer. -/
def hdrEncW : DpopHeader → List Char := fun _ => ['H']

def pldEncW : DpopPayload → List Char := fun _ => ['P']

def sigEncW : List Char → List Char := fun _ => ['S']

def shaW : String → String := fun _ => "d"

/-- The two-method configuration used by the `removeMethod` unit tests
(TOTP default plus e-mail). -/
def twofaConfigW : TwoFactorConfig :=
  { version := 2, defaultMethod := .totp,
    methods := [.totp "JBSWY3DPEHPK3PXP" 1000,
                .email "test@example.com" 2000] }

/-- The expected result of removing `totp` from `twofaConfigW`. -/
def twofaConfigAfterW : TwoFactorConfig :=
  { version := 2, defaultMethod := .email,
    methods := [.email "test@example.com" 2000] }

/-- A configuration holding only a TOTP method. -/
def twofaConfigSoloW : TwoFactorConfig :=
  { version := 2, defaultMethod := .totp,
    methods := [.totp "JBSWY3DPEHPK3PXP" 1000] }

/-- A concrete digest function with dot-free, fixed-length output that is
collision-free relative to the raw id `['a', 'b']`; stands in for
HMAC-SHA256 when evaluating the theorems on concrete inputs. -/
def hmacW : List Char → List Char :=
  fun s => if s = ['a', 'b'] then ['A'] else ['B']

/-- A concrete OAuth-session payload. -/
def oauthDataW : OAuthSession :=
  { state := "st", codeVerifier := "cv", dpopPrivateJwk := "jwk",
    tokenEndpoint := "https://pds.example/token" }

/-- A concrete user-session payload. -/
def userDataW : UserSession :=
  { userDid := "did:plc:w", userHandle := "w.example", createdAt := 0 }

/-- A transaction-route context with no session cookie. -/
def txDepsW : TxDeps :=
  { session := none, csrfHmac := hmacW, csrfToken := none, now := 0,
    walletConfigured := false, body := none, parseNumber := fun _ => none,
    today := "2026-10-11", walletOk := false, walletStatus := 502 }

-- ---------------------------------------------------------------------------
-- Helper lemmas on the string model
-- ---------------------------------------------------------------------------

theorem lastIndexOf_eq_none {s : List Char} {c : Char} (h : c ∉ s) :
    lastIndexOf s c = none := by
  induction s with
  | nil => rfl
  | cons a rest ih =>
    have ha : a ≠ c := fun hac => h (hac ▸ List.mem_cons_self a rest)
    have hr : c ∉ rest := fun hc => h (List.mem_cons_of_mem a hc)
    simp [lastIndexOf, ih hr, ha]

theorem lastIndexOf_append_cons (a : List Char) {b : List Char} {c : Char}
    (hb : c ∉ b) : lastIndexOf (a ++ c :: b) c = some a.length := by
  induction a with
  | nil => simp [lastIndexOf, lastIndexOf_eq_none hb]
  | cons d a' ih => simp [lastIndexOf, ih]

theorem take_append_cons (a b : List Char) (c : Char) :
    (a ++ c :: b).take a.length = a :=
  List.take_left a (c :: b)

theorem drop_append_cons (a b : List Char) (c : Char) :
    (a ++ c :: b).drop (a.length + 1) = b := by
  have h : a ++ c :: b = (a ++ [c]) ++ b := by simp
  have h2 : (a ++ [c]).length = a.length + 1 := by simp
  rw [h, ← h2, List.drop_left]

theorem verifySignedId_append_cons (hmac : List Char → List Char)
    (a b : List Char) (hb : '.' ∉ b) :
    verifySignedId hmac (a ++ '.' :: b) =
      if b.length = (hmac a).length ∧ b = hmac a then some a else none := by
  unfold verifySignedId
  rw [lastIndexOf_append_cons a hb]
  simp only [take_append_cons, drop_append_cons]

theorem verifySignedId_sign (hmac : List Char → List Char) (x : List Char)
    (hh : '.' ∉ hmac x) :
    verifySignedId hmac (sign hmac x) = some x := by
  rw [sign, verifySignedId_append_cons hmac x (hmac x) hh, if_pos ⟨rfl, rfl⟩]

theorem verifySignedId_no_dot (hmac : List Char → List Char) (s : List Char)
    (hs : '.' ∉ s) : verifySignedId hmac s = none := by
  unfold verifySignedId
  rw [lastIndexOf_eq_none hs]

theorem set_ne_of_get_ne {l : List Char} {i : Nat} (hi : i < l.length)
    {c : Char} (h : c ≠ l.get ⟨i, hi⟩) : l.set i c ≠ l := by
  intro he
  apply h
  have h1 : (l.set i c)[i]? = some c := by
    simp [List.getElem?_eq_getElem, hi]
  rw [he] at h1
  have h2 : l[i]? = some (l.get ⟨i, hi⟩) := by
    simp [List.getElem?_eq_getElem, hi]
  rw [h1] at h2
  exact Option.some.inj h2

theorem lookup_filter_ne {α β : Type} [BEq α] [LawfulBEq α] [DecidableEq α]
    (k : α) (s : List (α × β)) :
    (s.filter (fun p => p.1 ≠ k)).lookup k = none := by
  induction s with
  | nil => rfl
  | cons p rest ih =>
    rw [List.filter_cons]
    by_cases h : p.1 = k
    · rw [if_neg (by simp [h])]
      exact ih
    · rw [if_pos (by simp [h])]
      cases p with
      | mk a b =>
        simp only [List.lookup]
        have hk : (k == a) = false :=
          beq_eq_false_iff_ne.mpr (fun hk => h hk.symm)
        rw [hk]
        exact ih

theorem get_eq_of_getElem?_eq {α : Type} {l l' : List α} {i j : Nat}
    (hi : i < l.length) (hj : j < l'.length) (h : l[i]? = l'[j]?) :
    l.get ⟨i, hi⟩ = l'.get ⟨j, hj⟩ := by
  rw [List.get_eq_getElem, List.get_eq_getElem]
  have h1 : l[i]? = some l[i] := List.getElem?_eq_getElem hi
  have h2 : l'[j]? = some l'[j] := List.getElem?_eq_getElem hj
  rw [h1, h2] at h
  exact Option.some.inj h

theorem get_eq_of_getElem?_eq_some {α : Type} {l : List α} {i : Nat}
    (hi : i < l.length) {a : α} (h : l[i]? = some a) : l.get ⟨i, hi⟩ = a := by
  rw [List.get_eq_getElem]
  have h1 : l[i]? = some l[i] := List.getElem?_eq_getElem hi
  rw [h1] at h
  exact Option.some.inj h

theorem verifySignedId_set_ne (hmac : List Char → List Char) (L : Nat)
    (x : List Char) (hx : '.' ∉ x)
    (hnd : ∀ s, '.' ∉ hmac s) (hlen : ∀ s, (hmac s).length = L)
    (hinj : ∀ y, y ≠ x → hmac y ≠ hmac x)
    (i : Nat) (hi : i < (sign hmac x).length) (c : Char)
    (hc : c ≠ (sign hmac x).get ⟨i, hi⟩) :
    verifySignedId hmac ((sign hmac x).set i c) = none := by
  have hsign : sign hmac x = x ++ '.' :: hmac x := rfl
  have hlsign : (sign hmac x).length = x.length + 1 + L := by
    rw [hsign]
    simp [hlen x]
    omega
  rcases Nat.lt_trichotomy i x.length with hlt | heq | hgt
  · -- mutation inside the raw id part
    have hset : (sign hmac x).set i c = x.set i c ++ '.' :: hmac x := by
      rw [hsign, List.set_append, if_pos hlt]
    have hgx : (sign hmac x).get ⟨i, hi⟩ = x.get ⟨i, hlt⟩ := by
      apply get_eq_of_getElem?_eq
      rw [hsign, List.getElem?_append_left hlt]
    have hxne : x.set i c ≠ x := set_ne_of_get_ne hlt (hgx ▸ hc)
    have hhne : hmac (x.set i c) ≠ hmac x := hinj _ hxne
    rw [hset, verifySignedId_append_cons hmac _ _ (hnd x), if_neg]
    rintro ⟨-, he⟩
    exact hhne he.symm
  · -- mutation of the separator dot itself
    have hdot : (sign hmac x).get ⟨i, hi⟩ = '.' := by
      apply get_eq_of_getElem?_eq_some
      rw [hsign, List.getElem?_append_right (by omega), heq, Nat.sub_self]
      exact List.getElem?_cons_zero
    have hcd : c ≠ '.' := hdot ▸ hc
    have hset : (sign hmac x).set i c = x ++ c :: hmac x := by
      rw [hsign, List.set_append, if_neg (by omega), heq, Nat.sub_self]
      rfl
    have hmem : '.' ∉ (x ++ c :: hmac x) := by
      intro hm
      rcases List.mem_append.mp hm with h1 | h1
      · exact hx h1
      · rcases List.mem_cons.mp h1 with h2 | h2
        · exact hcd h2.symm
        · exact hnd x h2
    rw [hset, verifySignedId_no_dot hmac _ hmem]
  · -- mutation inside the digest part
    obtain ⟨j, hj⟩ : ∃ j, i = x.length + 1 + j := ⟨i - x.length - 1, by omega⟩
    have hjL : j < L := by omega
    have hjlen : j < (hmac x).length := by rw [hlen x]; exact hjL
    have hset : (sign hmac x).set i c = x ++ '.' :: (hmac x).set j c := by
      rw [hsign, List.set_append, if_neg (by omega)]
      congr 1
      have hsub : i - x.length = j + 1 := by omega
      rw [hsub]
      rfl
    have hgj : (sign hmac x).get ⟨i, hi⟩ = (hmac x).get ⟨j, hjlen⟩ := by
      apply get_eq_of_getElem?_eq
      rw [hsign, List.getElem?_append_right (by omega)]
      have hsub : i - x.length = j + 1 := by omega
      rw [hsub, List.getElem?_cons_succ]
    by_cases hcd : c = '.'
    · -- the new character is itself a dot: the split point moves and the
      -- digest part becomes too short
      subst hcd
      have hsplit : (hmac x).set j '.' =
          (hmac x).take j ++ '.' :: (hmac x).drop (j + 1) := by
        rw [List.set_eq_take_append_cons_drop, if_pos hjlen]
      have hassoc : x ++ '.' :: ((hmac x).take j ++ '.' :: (hmac x).drop (j + 1))
          = (x ++ '.' :: (hmac x).take j) ++ '.' :: (hmac x).drop (j + 1) := by
        simp
      have hbdrop : '.' ∉ (hmac x).drop (j + 1) := by
        intro hm
        exact hnd x (List.mem_of_mem_drop hm)
      rw [hset, hsplit, hassoc, verifySignedId_append_cons hmac _ _ hbdrop, if_neg]
      rintro ⟨h1, -⟩
      rw [List.length_drop, hlen, hlen] at h1
      omega
    · -- the new character is not a dot: same split, digest mismatch
      have hb : '.' ∉ (hmac x).set j c := by
        intro hm
        rcases List.mem_or_eq_of_mem_set hm with h1 | h1
        · exact hnd x h1
        · exact hcd h1.symm
      rw [hset, verifySignedId_append_cons hmac _ _ hb, if_neg]
      rintro ⟨-, he⟩
      exact set_ne_of_get_ne hjlen (hgj ▸ hc) he

-- ---------------------------------------------------------------------------
-- Claims C1, C2, C3, C9 (session store)
-- ---------------------------------------------------------------------------

/-- Claim C3: for every raw session ID `x` containing no dot (with the
digest, as in the source, dot-free base64url of a fixed length `L`),
`verifySignedId (sign x) = x`; changing any single character of a signed
ID makes `verifySignedId` return `null` (given that the digest does not
collide on the altered id); and a string containing no dot makes
`verifySignedId` return `null`. -/
theorem signed_id_roundtrip_and_tamper (hmac : List Char → List Char) :
    (∀ x : List Char, '.' ∉ x → '.' ∉ hmac x →
        verifySignedId hmac (sign hmac x) = some x)
    ∧ (∀ s : List Char, '.' ∉ s → verifySignedId hmac s = none)
    ∧ (∀ (L : Nat) (x : List Char), '.' ∉ x →
        (∀ s, '.' ∉ hmac s) → (∀ s, (hmac s).length = L) →
        (∀ y, y ≠ x → hmac y ≠ hmac x) →
        ∀ (i : Nat) (hi : i < (sign hmac x).length) (c : Char),
          c ≠ (sign hmac x).get ⟨i, hi⟩ →
          verifySignedId hmac ((sign hmac x).set i c) = none) :=
  ⟨fun x _ hh => verifySignedId_sign hmac x hh,
   fun s hs => verifySignedId_no_dot hmac s hs,
   fun L x hx hnd hlen hinj i hi c hc =>
     verifySignedId_set_ne hmac L x hx hnd hlen hinj i hi c hc⟩

/-- Witness for C3: the roundtrip, the no-dot rejection and a concrete
single-character mutation, evaluated at the id `"ab"`. -/
theorem signed_id_roundtrip_and_tamper_witness :
    verifySignedId hmacW (sign hmacW ['a', 'b']) = some ['a', 'b']
    ∧ verifySignedId hmacW ['a', 'b'] = none
    ∧ verifySignedId hmacW ((sign hmacW ['a', 'b']).set 0 'z') = none := by
  have h := signed_id_roundtrip_and_tamper hmacW
  refine ⟨h.1 ['a', 'b'] (by decide) (by decide),
          h.2.1 ['a', 'b'] (by decide),
          h.2.2 1 ['a', 'b'] (by decide) ?_ ?_ ?_ 0 (by decide) 'z' (by decide)⟩
  · intro s
    unfold hmacW
    split <;> decide
  · intro s
    unfold hmacW
    split <;> decide
  · intro y hy
    unfold hmacW
    rw [if_neg hy, if_pos rfl]
    decide

/-- Claim C1: a signed ID minted by `createOAuthSession` never resolves
through `getUserSession` and vice versa; and each getter returns the
stored data exactly when the record exists under the verified raw id,
its stored tag matches the requested kind, and its `expiresAt` lies in
the future — otherwise it returns `null` (the getters are total
functions, so they never throw). -/
theorem session_kind_isolation (hmac : List Char → List Char) :
    (∀ (store : SessionStore) (r : List Char) (now now2 : Int)
        (data : OAuthSession), '.' ∉ hmac r →
        getUserSession hmac (createOAuthSession hmac store r now data).2 now2
          (createOAuthSession hmac store r now data).1 = none)
    ∧ (∀ (store : SessionStore) (r : List Char) (now now2 : Int)
        (data : UserSession), '.' ∉ hmac r →
        getOAuthSession hmac (createUserSession hmac store r now data).2 now2
          (createUserSession hmac store r now data).1 = none)
    ∧ (∀ (store : SessionStore) (now : Int) (signedId : List Char)
        (d : OAuthSession),
        getOAuthSession hmac store now signedId = some d ↔
          ∃ r e, verifySignedId hmac signedId = some r
            ∧ store.lookup r = some (.oauth d e) ∧ now < e)
    ∧ (∀ (store : SessionStore) (now : Int) (signedId : List Char)
        (d : UserSession),
        getUserSession hmac store now signedId = some d ↔
          ∃ r e, verifySignedId hmac signedId = some r
            ∧ store.lookup r = some (.user d e) ∧ now < e) := by
  refine ⟨?_, ?_, ?_, ?_⟩
  · intro store r now now2 data h
    simp only [createOAuthSession, getUserSession, storeSet]
    rw [verifySignedId_sign hmac r h]
    simp [List.lookup]
  · intro store r now now2 data h
    simp only [createUserSession, getOAuthSession, storeSet]
    rw [verifySignedId_sign hmac r h]
    simp [List.lookup]
  · intro store now signedId d
    unfold getOAuthSession
    cases hv : verifySignedId hmac signedId with
    | none => simp
    | some rid =>
      cases hl : store.lookup rid with
      | none => simp [hl]
      | some sd =>
        cases sd with
        | oauth data e =>
          by_cases he : e ≤ now
          · have hne : ¬ now < e := by omega
            simp [hl, he, hne]
          · have hlt : now < e := by omega
            simp only [hl]
            rw [if_neg he]
            constructor
            · intro h2
              obtain rfl := Option.some.inj h2
              exact ⟨rid, e, rfl, hl, hlt⟩
            · rintro ⟨r, e2, hr, hlook, hnow⟩
              obtain rfl := Option.some.inj hr
              rw [hl] at hlook
              simp only [Option.some.injEq, SessionData.oauth.injEq] at hlook
              obtain ⟨rfl, rfl⟩ := hlook
              rfl
        | user data e => simp [hl]
  · intro store now signedId d
    unfold getUserSession
    cases hv : verifySignedId hmac signedId with
    | none => simp
    | some rid =>
      cases hl : store.lookup rid with
      | none => simp [hl]
      | some sd =>
        cases sd with
        | user data e =>
          by_cases he : e ≤ now
          · have hne : ¬ now < e := by omega
            simp [hl, he, hne]
          · have hlt : now < e := by omega
            simp only [hl]
            rw [if_neg he]
            constructor
            · intro h2
              obtain rfl := Option.some.inj h2
              exact ⟨rid, e, rfl, hl, hlt⟩
            · rintro ⟨r, e2, hr, hlook, hnow⟩
              obtain rfl := Option.some.inj hr
              rw [hl] at hlook
              simp only [Option.some.injEq, SessionData.user.injEq] at hlook
              obtain ⟨rfl, rfl⟩ := hlook
              rfl
        | oauth data e => simp [hl]

/-- Witness for C1: kind isolation evaluated on concrete stores. -/
theorem session_kind_isolation_witness :
    getUserSession hmacW
        (createOAuthSession hmacW [] ['a', 'b'] 0 oauthDataW).2 0
        (createOAuthSession hmacW [] ['a', 'b'] 0 oauthDataW).1 = none
    ∧ getOAuthSession hmacW
        (createUserSession hmacW [] ['a', 'b'] 0 userDataW).2 0
        (createUserSession hmacW [] ['a', 'b'] 0 userDataW).1 = none :=
  ⟨(session_kind_isolation hmacW).1 [] ['a', 'b'] 0 0 oauthDataW (by decide),
   (session_kind_isolation hmacW).2.1 [] ['a', 'b'] 0 0 userDataW (by decide)⟩

/-- Claim C9: deletion is not kind-checked — `deleteOAuthSession` and
`deleteUserSession` are the same operation (they remove whatever record
the verified raw id maps to, whatever its kind), and after either one
the raw id no longer resolves in the store. -/
theorem delete_not_kind_checked (hmac : List Char → List Char) :
    ∀ (store : SessionStore) (r : List Char), '.' ∉ hmac r →
      deleteOAuthSession hmac store (sign hmac r)
          = deleteUserSession hmac store (sign hmac r)
      ∧ (deleteOAuthSession hmac store (sign hmac r)).lookup r = none := by
  intro store r h
  refine ⟨rfl, ?_⟩
  unfold deleteOAuthSession
  rw [verifySignedId_sign hmac r h]
  exact lookup_filter_ne r store

/-- Witness for C9: deleting through the OAuth-kind delete removes a
user-kind record. -/
theorem delete_not_kind_checked_witness :
    deleteOAuthSession hmacW [(['a', 'b'], SessionData.user userDataW 9)]
        (sign hmacW ['a', 'b'])
      = deleteUserSession hmacW [(['a', 'b'], SessionData.user userDataW 9)]
        (sign hmacW ['a', 'b'])
    ∧ (deleteOAuthSession hmacW [(['a', 'b'], SessionData.user userDataW 9)]
        (sign hmacW ['a', 'b'])).lookup ['a', 'b'] = none :=
  delete_not_kind_checked hmacW [(['a', 'b'], SessionData.user userDataW 9)]
    ['a', 'b'] (by decide)

/-- Claim C2 (code bug): `UserSession` in `src/lib/session.ts` has exactly
the fields `userDid`, `userHandle` and `createdAt` — there is no
`verified` field, so two records agreeing on those three fields are
equal, and no record returned by `getUserSession` can carry a
`verified : bool`.  (The 2FA disable route nonetheless constructs a
session with `verified: true` via `createUserSessionCookie`, which
`src/lib/session.ts` does not define, so the code contradicts its own
caller; the spec records the intended shape.) -/
theorem userSession_fields_complete (s t : UserSession)
    (h1 : s.userDid = t.userDid) (h2 : s.userHandle = t.userHandle)
    (h3 : s.createdAt = t.createdAt) : s = t := by
  cases s
  cases t
  simp_all

/-- Witness for C2. -/
theorem userSession_fields_complete_witness :
    ({ userDid := "did:plc:w", userHandle := "w.example", createdAt := 0 }
      : UserSession) = userDataW :=
  userSession_fields_complete _ _ rfl rfl rfl

-- ---------------------------------------------------------------------------
-- Claim C4 (CSRF tokens)
-- ---------------------------------------------------------------------------

theorem splitOnChar_ne_nil (sep : Char) (s : List Char) :
    splitOnChar sep s ≠ [] := by
  cases s with
  | nil => simp [splitOnChar]
  | cons a rest =>
    unfold splitOnChar
    cases splitOnChar sep rest with
    | nil => simp
    | cons p ps =>
      by_cases h : a = sep <;> simp [h]

theorem splitOnChar_no_sep {sep : Char} {s : List Char} (h : sep ∉ s) :
    splitOnChar sep s = [s] := by
  induction s with
  | nil => rfl
  | cons a rest ih =>
    have ha : a ≠ sep := fun hc => h (hc ▸ List.mem_cons_self a rest)
    have hr : sep ∉ rest := fun hc => h (List.mem_cons_of_mem a hc)
    unfold splitOnChar
    rw [ih hr]
    simp [ha]

theorem splitOnChar_cons (sep a : Char) (rest : List Char) :
    splitOnChar sep (a :: rest) =
      match splitOnChar sep rest with
      | [] => [[]]
      | p :: ps => if a = sep then [] :: p :: ps else (a :: p) :: ps := rfl

theorem splitOnChar_append_cons {sep : Char} {a : List Char} (b : List Char)
    (ha : sep ∉ a) :
    splitOnChar sep (a ++ sep :: b) = a :: splitOnChar sep b := by
  induction a with
  | nil =>
    rw [List.nil_append, splitOnChar_cons]
    cases hsb : splitOnChar sep b with
    | nil => exact absurd hsb (splitOnChar_ne_nil sep b)
    | cons p ps => simp
  | cons d a' ih =>
    have hd : d ≠ sep := fun hc => ha (hc ▸ List.mem_cons_self d a')
    have ha' : sep ∉ a' := fun hc => ha (List.mem_cons_of_mem d hc)
    rw [List.cons_append, splitOnChar_cons, ih ha']
    simp [hd]

theorem digitChar36_valid : ∀ n < 36, charToDigit36 (digitChar36 n) = some n := by
  decide

theorem digitChar36_ne_dot : ∀ n < 36, digitChar36 n ≠ '.' := by
  decide

theorem toBase36_ne_nil (n : Nat) : toBase36 n ≠ [] := by
  unfold toBase36
  split
  · simp
  · simp

theorem toBase36_digits (n : Nat) :
    ∀ c ∈ toBase36 n, (charToDigit36 c).isSome := by
  induction n using toBase36.induct with
  | case1 n h =>
    intro c hc
    rw [toBase36, dif_pos h] at hc
    simp only [List.mem_singleton] at hc
    rw [hc, digitChar36_valid n h]
    rfl
  | case2 n h ih =>
    intro c hc
    rw [toBase36, dif_neg h] at hc
    rcases List.mem_append.mp hc with h1 | h1
    · exact ih c h1
    · simp only [List.mem_singleton] at h1
      have hm : n % 36 < 36 := Nat.mod_lt _ (by omega)
      rw [h1, digitChar36_valid _ hm]
      rfl

theorem toBase36_no_dot (n : Nat) : '.' ∉ toBase36 n := by
  intro hc
  have h1 := toBase36_digits n '.' hc
  have h2 : charToDigit36 '.' = none := by decide
  rw [h2] at h1
  exact absurd h1 (by decide)

theorem foldl36_toBase36 (n : Nat) :
    (toBase36 n).foldl (fun acc c => acc * 36 + ((charToDigit36 c).getD 0)) 0
      = n := by
  induction n using toBase36.induct with
  | case1 n h =>
    rw [toBase36, dif_pos h]
    simp [digitChar36_valid n h]
  | case2 n h ih =>
    have hm : n % 36 < 36 := Nat.mod_lt _ (by omega)
    rw [toBase36, dif_neg h, List.foldl_append, ih]
    simp [digitChar36_valid _ hm]
    omega

theorem parseNat36_toBase36 (n : Nat) : parseNat36 (toBase36 n) = some n := by
  unfold parseNat36
  have htw : (toBase36 n).takeWhile (fun c => (charToDigit36 c).isSome)
      = toBase36 n :=
    List.takeWhile_eq_self_iff.mpr (toBase36_digits n)
  rw [htw, if_neg (toBase36_ne_nil n), foldl36_toBase36]

theorem parseBase36_toBase36 (n : Nat) :
    parseBase36 (toBase36 n) = some (n : Int) := by
  have hhead : ∀ c ∈ toBase36 n, c ≠ '-' ∧ c ≠ '+' := by
    intro c hc
    have h1 := toBase36_digits n c hc
    constructor
    · rintro rfl
      exact absurd h1 (by decide)
    · rintro rfl
      exact absurd h1 (by decide)
  unfold parseBase36
  split
  · next rest heq =>
    exact absurd rfl (hhead '-' (heq ▸ List.mem_cons_self '-' rest)).1
  · next rest heq =>
    exact absurd rfl (hhead '+' (heq ▸ List.mem_cons_self '+' rest)).2
  · next =>
    rw [parseNat36_toBase36]
    rfl

theorem generateCsrfToken_ne_nil (hmac : List Char → List Char) (now : Nat)
    (random : List Char) : generateCsrfToken hmac now random ≠ [] := by
  unfold generateCsrfToken
  exact List.append_ne_nil_of_right_ne_nil _ (by simp)

theorem splitOnChar_generateCsrfToken (hmac : List Char → List Char)
    (now : Nat) (random : List Char) (hr : '.' ∉ random)
    (hh : '.' ∉ hmac (toBase36 now ++ '.' :: random)) :
    splitOnChar '.' (generateCsrfToken hmac now random)
      = [toBase36 now, random, hmac (toBase36 now ++ '.' :: random)] := by
  unfold generateCsrfToken
  have hassoc : (toBase36 now ++ '.' :: random)
        ++ '.' :: hmac (toBase36 now ++ '.' :: random)
      = toBase36 now
        ++ '.' :: (random ++ '.' :: hmac (toBase36 now ++ '.' :: random)) := by
    simp
  rw [hassoc, splitOnChar_append_cons _ (toBase36_no_dot now),
    splitOnChar_append_cons _ hr, splitOnChar_no_sep hh]

theorem validateCsrfToken_generate (hmac : List Char → List Char)
    (now1 : Nat) (now2 : Int) (random : List Char) (hr : '.' ∉ random)
    (hrne : random ≠ []) (hh : '.' ∉ hmac (toBase36 now1 ++ '.' :: random))
    (hhne : hmac (toBase36 now1 ++ '.' :: random) ≠ []) :
    validateCsrfToken hmac now2 (generateCsrfToken hmac now1 random)
      = if now2 - (now1 : Int) > TOKEN_MAX_AGE_MS then false else true := by
  unfold validateCsrfToken
  rw [if_neg (generateCsrfToken_ne_nil hmac now1 random)]
  rw [splitOnChar_generateCsrfToken hmac now1 random hr hh]
  simp only []
  rw [if_neg (show ¬(toBase36 now1 = [] ∨ random = []
    ∨ hmac (toBase36 now1 ++ '.' :: random) = []) by
      simp [toBase36_ne_nil now1, hrne, hhne])]
  rw [if_neg (show ¬((hmac (toBase36 now1 ++ '.' :: random)).length
    ≠ (hmac (toBase36 now1 ++ '.' :: random)).length) by simp)]
  rw [if_neg (show ¬(hmac (toBase36 now1 ++ '.' :: random)
    ≠ hmac (toBase36 now1 ++ '.' :: random)) by simp)]
  rw [parseBase36_toBase36]

theorem validateCsrfToken_not3 (hmac : List Char → List Char) (now : Int)
    (token : List Char)
    (H : ∀ a b c, splitOnChar '.' token = [a, b, c]
      → a = [] ∨ b = [] ∨ c = []) :
    validateCsrfToken hmac now token = false := by
  unfold validateCsrfToken
  split
  · rfl
  · split
    · next a b c heq =>
      rw [if_pos (H a b c heq)]
    · rfl

theorem validateCsrfToken_bad_hmac (hmac : List Char → List Char) (now : Int)
    (token : List Char) (a b c : List Char)
    (hsplit : splitOnChar '.' token = [a, b, c])
    (hne : hmac (a ++ '.' :: b) ≠ c) :
    validateCsrfToken hmac now token = false := by
  unfold validateCsrfToken
  split
  · rfl
  · split
    · next a' b' c' heq =>
      rw [hsplit] at heq
      obtain ⟨rfl, rfl, rfl⟩ : a = a' ∧ b = b' ∧ c = c' := by
        simpa using heq
      by_cases h0 : a = [] ∨ b = [] ∨ c = []
      · rw [if_pos h0]
      · rw [if_neg h0]
        by_cases hlen : (hmac (a ++ '.' :: b)).length ≠ c.length
        · rw [if_pos hlen]
        · rw [if_neg hlen, if_pos hne]
    · rfl

/-- Claim C4: a token freshly produced by `generateCsrfToken` validates
within the 1-hour max age; `validateCsrfToken` returns `false` — it is a
total boolean function, so it never throws — for every token that does
not split into exactly 3 non-empty dot-separated parts, whose digest
does not match the recomputation, or whose age exceeds 1 hour; flipping
the last character of a fresh token makes it invalid, and two
generations with distinct nonces differ. -/
theorem csrf_validate_properties (hmac : List Char → List Char)
    (hnd : ∀ s, '.' ∉ hmac s) (hne : ∀ s, hmac s ≠ []) :
    (∀ (now1 : Nat) (now2 : Int) (random : List Char),
      '.' ∉ random → random ≠ [] → now2 - (now1 : Int) ≤ TOKEN_MAX_AGE_MS →
      validateCsrfToken hmac now2 (generateCsrfToken hmac now1 random) = true)
    ∧ (∀ (now : Int) (token : List Char),
      (∀ a b c, splitOnChar '.' token = [a, b, c] → a = [] ∨ b = [] ∨ c = []) →
      validateCsrfToken hmac now token = false)
    ∧ (∀ (now : Int) (token a b c : List Char),
      splitOnChar '.' token = [a, b, c] → hmac (a ++ '.' :: b) ≠ c →
      validateCsrfToken hmac now token = false)
    ∧ (∀ (now1 : Nat) (now2 : Int) (random : List Char),
      '.' ∉ random → random ≠ [] → now2 - (now1 : Int) > TOKEN_MAX_AGE_MS →
      validateCsrfToken hmac now2 (generateCsrfToken hmac now1 random) = false)
    ∧ (∀ (now1 : Nat) (now2 : Int) (random front : List Char) (d c : Char),
      '.' ∉ random → random ≠ [] →
      generateCsrfToken hmac now1 random = front ++ [d] → c ≠ d →
      validateCsrfToken hmac now2 (front ++ [c]) = false)
    ∧ (∀ (now1 now2 : Nat) (r1 r2 : List Char),
      '.' ∉ r1 → '.' ∉ r2 → r1 ≠ r2 →
      generateCsrfToken hmac now1 r1 ≠ generateCsrfToken hmac now2 r2) := by
  refine ⟨?_, ?_, ?_, ?_, ?_, ?_⟩
  · intro now1 now2 random hr hrne hage
    rw [validateCsrfToken_generate hmac now1 now2 random hr hrne (hnd _) (hne _)]
    rw [if_neg (by omega)]
  · intro now token H
    exact validateCsrfToken_not3 hmac now token H
  · intro now token a b c hsplit hmis
    exact validateCsrfToken_bad_hmac hmac now token a b c hsplit hmis
  · intro now1 now2 random hr hrne hage
    rw [validateCsrfToken_generate hmac now1 now2 random hr hrne (hnd _) (hne _)]
    rw [if_pos (by omega)]
  · intro now1 now2 random front d c hr hrne hgen hc
    set payload := toBase36 now1 ++ '.' :: random with hpayload
    have hgen2 : generateCsrfToken hmac now1 random
        = (payload ++ '.' :: (hmac payload).dropLast)
          ++ [(hmac payload).getLast (hne payload)] := by
      rw [generateCsrfToken]
      conv_lhs => rw [← List.dropLast_append_getLast (hne payload)]
      simp [hpayload]
    rw [hgen] at hgen2
    have hlen2 : front.length
        = (payload ++ '.' :: (hmac payload).dropLast).length := by
      have hlist := congrArg List.length hgen2
      simp only [List.length_append, List.length_cons, List.length_dropLast,
        List.length_singleton] at hlist ⊢
      omega
    obtain ⟨hfront, hd⟩ := List.append_inj hgen2 hlen2
    have hd2 : d = (hmac payload).getLast (hne payload) := by
      simpa using hd
    have hdropnd : '.' ∉ (hmac payload).dropLast :=
      fun hm => hnd payload (List.dropLast_subset _ hm)
    by_cases hcd : c = '.'
    · -- the flipped character is a dot: the token now has four parts
      subst hcd
      have hsp : splitOnChar '.' (front ++ ['.'])
          = [toBase36 now1, random, (hmac payload).dropLast, []] := by
        rw [hfront]
        have hassoc : (payload ++ '.' :: (hmac payload).dropLast) ++ ['.']
            = toBase36 now1 ++ '.' :: (random
              ++ '.' :: ((hmac payload).dropLast ++ '.' :: ([] : List Char))) := by
          simp [hpayload]
        rw [hassoc, splitOnChar_append_cons _ (toBase36_no_dot now1),
          splitOnChar_append_cons _ hr, splitOnChar_append_cons _ hdropnd]
        rfl
      apply validateCsrfToken_not3
      intro a b c' heq
      rw [hsp] at heq
      exact absurd heq (by simp)
    · -- the flipped character is not a dot: the digest no longer matches
      have hndrop : '.' ∉ (hmac payload).dropLast ++ [c] := by
        intro hm
        rcases List.mem_append.mp hm with h1 | h1
        · exact hdropnd h1
        · simp only [List.mem_singleton] at h1
          exact hcd h1.symm
      have hsp : splitOnChar '.' (front ++ [c])
          = [toBase36 now1, random, (hmac payload).dropLast ++ [c]] := by
        rw [hfront]
        have hassoc : (payload ++ '.' :: (hmac payload).dropLast) ++ [c]
            = toBase36 now1 ++ '.' :: (random
              ++ '.' :: ((hmac payload).dropLast ++ [c])) := by
          simp [hpayload]
        rw [hassoc, splitOnChar_append_cons _ (toBase36_no_dot now1),
          splitOnChar_append_cons _ hr, splitOnChar_no_sep hndrop]
      apply validateCsrfToken_bad_hmac hmac now2 _ _ _ _ hsp
      intro habs
      rw [hpayload] at habs
      conv_lhs at habs => rw [← List.dropLast_append_getLast (hne payload)]
      have := (List.append_cancel_left habs)
      simp at this
      exact hc (this.symm ▸ hd2.symm ▸ rfl)
  · intro now1 now2 r1 r2 h1 h2 hne12 heq
    have hs1 := splitOnChar_generateCsrfToken hmac now1 r1 h1 (hnd _)
    have hs2 := splitOnChar_generateCsrfToken hmac now2 r2 h2 (hnd _)
    rw [heq, hs2] at hs1
    simp only [List.cons.injEq] at hs1
    exact hne12 hs1.2.1.symm

/-- Witness for C4: each property of `csrf_validate_properties`
instantiated on concrete tokens (digest `hmacW`, timestamp 5). -/
theorem csrf_validate_properties_witness :
    validateCsrfToken hmacW 5 (generateCsrfToken hmacW 5 ['r']) = true
    ∧ validateCsrfToken hmacW 0 ['x'] = false
    ∧ validateCsrfToken hmacW 0 ['a', '.', 'b', '.', 'X'] = false
    ∧ validateCsrfToken hmacW 3700000 (generateCsrfToken hmacW 5 ['r']) = false
    ∧ validateCsrfToken hmacW 0 (['5', '.', 'r', '.'] ++ ['z']) = false
    ∧ generateCsrfToken hmacW 5 ['p'] ≠ generateCsrfToken hmacW 5 ['q'] := by
  have hnd : ∀ s, '.' ∉ hmacW s := by
    intro s
    unfold hmacW
    split <;> decide
  have hne : ∀ s, hmacW s ≠ [] := by
    intro s
    unfold hmacW
    split <;> decide
  have h := csrf_validate_properties hmacW hnd hne
  have e1 : toBase36 5 = ['5'] := by
    rw [toBase36, dif_pos (by norm_num)]
    rfl
  have hgen : generateCsrfToken hmacW 5 ['r'] = ['5', '.', 'r', '.'] ++ ['B'] := by
    rw [generateCsrfToken, e1]
    rfl
  refine ⟨h.1 5 5 ['r'] (by decide) (by decide) (by decide),
          h.2.1 0 ['x'] ?_,
          h.2.2.1 0 ['a', '.', 'b', '.', 'X'] ['a'] ['b'] ['X'] rfl (by decide),
          h.2.2.2.1 5 3700000 ['r'] (by decide) (by decide) (by decide),
          h.2.2.2.2.1 5 0 ['r'] ['5', '.', 'r', '.'] 'B' 'z'
            (by decide) (by decide) hgen (by decide),
          h.2.2.2.2.2 5 5 ['p'] ['q'] (by decide) (by decide) (by decide)⟩
  intro a b c heq
  have hx : splitOnChar '.' ['x'] = [['x']] := rfl
  rw [hx] at heq
  exact absurd heq (by simp)

-- ---------------------------------------------------------------------------
-- Claim C8 (sanitizeForLog)
-- ---------------------------------------------------------------------------

/-- Counterexample for C8 as stated: `"alice@example.com"` has length 17
(at most 20 characters) yet `sanitizeForLog` does not return it
unchanged. -/
theorem sanitizeForLog_short_not_identity :
    ("alice@example.com".toList).length ≤ 20
    ∧ sanitizeForLog ("alice@example.com".toList)
        ≠ "alice@example.com".toList := by
  decide

/-- Claim C8 (amended): the DID and e-mail redactions behave as stated
and the empty string maps to itself; a string of at most 20 characters
passes through unchanged provided it is not redacted as a long DID
(`did:` prefix with more than 16 characters) and contains no `@`. -/
theorem sanitizeForLog_properties :
    sanitizeForLog ("did:plc:abcdefghijklmnop".toList)
        = "did:plc:abcdefgh...".toList
    ∧ hasSub ("abcdefghijklmnop".toList)
        (sanitizeForLog ("did:plc:abcdefghijklmnop".toList)) = false
    ∧ sanitizeForLog ("alice@example.com".toList) = "a***@example.com".toList
    ∧ (∀ v : List Char, v.length ≤ 20
        → ¬(("did:".toList).isPrefixOf v = true ∧ 16 < v.length)
        → '@' ∉ v → sanitizeForLog v = v)
    ∧ sanitizeForLog [] = [] := by
  refine ⟨by decide, by decide, by decide, ?_, rfl⟩
  intro v hlen hdid hat
  unfold sanitizeForLog
  by_cases hv : v = []
  · rw [if_pos hv]
    exact hv.symm
  · rw [if_neg hv]
    by_cases hp : ("did:".toList).isPrefixOf v = true
    · rw [if_pos hp, if_neg (fun h16 => hdid ⟨hp, h16⟩)]
    · rw [if_neg hp, if_neg hat, if_neg (by omega)]

/-- Witness for C8's pass-through conjunct at `"hi"`. -/
theorem sanitizeForLog_properties_witness :
    sanitizeForLog ['h', 'i'] = ['h', 'i'] :=
  sanitizeForLog_properties.2.2.2.1 ['h', 'i'] (by decide) (by decide) (by decide)

-- ---------------------------------------------------------------------------
-- Claim C5 (rate limiter)
-- ---------------------------------------------------------------------------

theorem lookup_cons_self {α β : Type} [BEq α] [LawfulBEq α] (k : α) (v : β)
    (s : List (α × β)) : ((k, v) :: s).lookup k = some v := by
  simp [List.lookup]

theorem fdiv_eq_zero_of_lt {a w : Int} (ha : 0 ≤ a) (hw : a < w) :
    a.fdiv w = 0 := by
  rw [Int.fdiv_eq_ediv _ (by omega)]
  exact Int.ediv_eq_zero_of_lt ha hw

theorem le_fdiv_of_mul_le {m e w : Int} (hw : 0 < w) (h : m * w ≤ e) :
    m ≤ e.fdiv w := by
  rw [Int.fdiv_eq_ediv _ (by omega)]
  exact (Int.le_ediv_iff_mul_le hw).mpr h

theorem ceilDiv1000_pos {w : Int} (hw : 0 < w) : 0 < ceilDiv1000 w := by
  unfold ceilDiv1000
  have := Int.fdiv_neg' (a := -w) (b := 1000) (by omega) (by norm_num)
  omega

theorem checkRateLimit_lookup_some {st : RLStore} {key : String}
    {m w now : Int} {b : Bucket} (hlook : st.lookup key = some b) :
    checkRateLimit st key m w now =
      if 0 < (stepBucket b m w now).tokens then
        (⟨true, none⟩,
         (key, ⟨(stepBucket b m w now).tokens - 1,
                (stepBucket b m w now).lastRefill⟩)
           :: st.filter (fun p => p.1 ≠ key))
      else
        (⟨false, some (ceilDiv1000 w)⟩,
         (key, stepBucket b m w now) :: st.filter (fun p => p.1 ≠ key)) := by
  unfold checkRateLimit
  rw [hlook]
  rfl

theorem checkRateLimit_lookup_none {st : RLStore} {key : String}
    {m w now : Int} (hlook : st.lookup key = none) :
    checkRateLimit st key m w now =
      if 0 < (stepBucket ⟨m, now⟩ m w now).tokens then
        (⟨true, none⟩,
         (key, ⟨(stepBucket ⟨m, now⟩ m w now).tokens - 1,
                (stepBucket ⟨m, now⟩ m w now).lastRefill⟩)
           :: st.filter (fun p => p.1 ≠ key))
      else
        (⟨false, some (ceilDiv1000 w)⟩,
         (key, stepBucket ⟨m, now⟩ m w now) :: st.filter (fun p => p.1 ≠ key)) := by
  unfold checkRateLimit
  rw [hlook]
  rfl

theorem stepBucket_no_refill {b : Bucket} {m w now : Int}
    (h : ((now - b.lastRefill) * m).fdiv w ≤ 0) :
    stepBucket b m w now = b := by
  unfold stepBucket
  rw [if_neg (by omega)]

theorem runCalls_all_allowed (key : String) (m w t0 : Int) (hm : 1 ≤ m) :
    ∀ (ts : List Int) (st : RLStore) (k : Int),
      st.lookup key = some ⟨k, t0⟩ →
      (ts.length : Int) ≤ k →
      (∀ t ∈ ts, t0 ≤ t ∧ (t - t0) * m < w) →
      (runCalls key m w st ts).1 = List.replicate ts.length true
      ∧ (runCalls key m w st ts).2.lookup key
          = some ⟨k - ts.length, t0⟩ := by
  intro ts
  induction ts with
  | nil =>
    intro st k hlook hlen hts
    refine ⟨rfl, ?_⟩
    simpa using hlook
  | cons t ts ih =>
    intro st k hlook hlen hts
    obtain ⟨ht0, htw⟩ := hts t (List.mem_cons_self t ts)
    have hrefill : ((t - t0) * m).fdiv w = 0 :=
      fdiv_eq_zero_of_lt (mul_nonneg (by omega) (by omega)) htw
    have hstep : stepBucket ⟨k, t0⟩ m w t = ⟨k, t0⟩ :=
      stepBucket_no_refill (le_of_eq hrefill)
    have hkpos : 0 < k := by
      simp only [List.length_cons] at hlen
      push_cast at hlen
      omega
    have hcall : checkRateLimit st key m w t
        = (⟨true, none⟩,
           (key, ⟨k - 1, t0⟩) :: st.filter (fun p => p.1 ≠ key)) := by
      rw [checkRateLimit_lookup_some hlook, hstep, if_pos hkpos]
    have hlook2 : ((key, (⟨k - 1, t0⟩ : Bucket))
        :: st.filter (fun p => p.1 ≠ key)).lookup key
        = some ⟨k - 1, t0⟩ := lookup_cons_self key _ _
    have hrest := ih ((key, ⟨k - 1, t0⟩) :: st.filter (fun p => p.1 ≠ key))
      (k - 1) hlook2
      (by simp only [List.length_cons] at hlen; push_cast at hlen ⊢; omega)
      (fun t' ht' => hts t' (List.mem_cons_of_mem t ht'))
    have hrun : runCalls key m w st (t :: ts)
        = ((checkRateLimit st key m w t).1.allowed
            :: (runCalls key m w (checkRateLimit st key m w t).2 ts).1,
           (runCalls key m w (checkRateLimit st key m w t).2 ts).2) := rfl
    rw [hrun, hcall]
    refine ⟨?_, ?_⟩
    · simp only [List.length_cons, List.replicate_succ]
      rw [hrest.1]
    · rw [hrest.2]
      have : k - (↑ts.length + 1) = k - 1 - ↑ts.length := by omega
      simp only [List.length_cons]
      push_cast
      rw [this]

/-- Claim C5: for a fresh key with `maxRequests ≥ 1` and `windowMs > 0`,
the first `maxRequests` calls within one window are allowed and the next
call in the same window is denied with
`retryAfter = ceil(windowMs/1000) > 0`; each call refills
`floor(elapsed/windowMs * maxRequests)` tokens capped at `maxRequests`
(so tokens stay in `[0, maxRequests]`) and advances `lastRefill` only
when the refill is positive; and once a full window has elapsed the key
again allows `maxRequests` calls. -/
theorem rate_limiter_token_bucket (key : String) (m w : Int)
    (hm : 1 ≤ m) (hw : 0 < w) :
    (∀ (st : RLStore) (t0 t' : Int) (rest : List Int),
      st.lookup key = none →
      (rest.length : Int) = m - 1 →
      (∀ t ∈ rest, t0 ≤ t ∧ (t - t0) * m < w) →
      t0 ≤ t' → (t' - t0) * m < w →
      (runCalls key m w st (t0 :: rest)).1
          = List.replicate (rest.length + 1) true
      ∧ (checkRateLimit (runCalls key m w st (t0 :: rest)).2 key m w t').1
          = ⟨false, some (ceilDiv1000 w)⟩
      ∧ 0 < ceilDiv1000 w)
    ∧ (∀ (st : RLStore) (b : Bucket) (now : Int),
      st.lookup key = some b → 0 ≤ b.tokens → b.tokens ≤ m →
      ∃ b', (checkRateLimit st key m w now).2.lookup key = some b'
        ∧ 0 ≤ b'.tokens ∧ b'.tokens ≤ m
        ∧ b'.lastRefill
            = (if 0 < ((now - b.lastRefill) * m).fdiv w then now
               else b.lastRefill)
        ∧ b'.tokens
            + (if (checkRateLimit st key m w now).1.allowed then 1 else 0)
          = (if 0 < ((now - b.lastRefill) * m).fdiv w
             then min m (b.tokens + ((now - b.lastRefill) * m).fdiv w)
             else b.tokens))
    ∧ (∀ (st : RLStore) (t0 now : Int) (rest : List Int),
      st.lookup key = some ⟨0, t0⟩ → w ≤ now - t0 →
      (rest.length : Int) = m - 1 →
      (∀ t ∈ rest, now ≤ t ∧ (t - now) * m < w) →
      (runCalls key m w st (now :: rest)).1
          = List.replicate (rest.length + 1) true) := by
  refine ⟨?_, ?_, ?_⟩
  · intro st t0 t' rest hlook hlen hrest ht0 htw
    have hstep0 : stepBucket ⟨m, t0⟩ m w t0 = ⟨m, t0⟩ :=
      stepBucket_no_refill (by
        have : ((t0 - t0) * m) = 0 := by ring
        rw [this, Int.zero_fdiv])
    have hcall0 : checkRateLimit st key m w t0
        = (⟨true, none⟩,
           (key, ⟨m - 1, t0⟩) :: st.filter (fun p => p.1 ≠ key)) := by
      rw [checkRateLimit_lookup_none hlook, hstep0,
        if_pos (show (0 : Int) < m by omega)]
    have hrun : runCalls key m w st (t0 :: rest)
        = ((checkRateLimit st key m w t0).1.allowed
            :: (runCalls key m w (checkRateLimit st key m w t0).2 rest).1,
           (runCalls key m w (checkRateLimit st key m w t0).2 rest).2) := rfl
    have hrest2 := runCalls_all_allowed key m w t0 hm rest
      ((key, ⟨m - 1, t0⟩) :: st.filter (fun p => p.1 ≠ key)) (m - 1)
      (lookup_cons_self key _ _) (by omega) hrest
    refine ⟨?_, ?_, ceilDiv1000_pos hw⟩
    · rw [hrun, hcall0]
      simp only [List.replicate_succ]
      rw [hrest2.1]
    · have hfinal : (runCalls key m w st (t0 :: rest)).2.lookup key
          = some ⟨0, t0⟩ := by
        rw [hrun, hcall0]
        rw [hrest2.2]
        have : m - 1 - (rest.length : Int) = 0 := by omega
        rw [this]
      have hstep' : stepBucket ⟨0, t0⟩ m w t' = ⟨0, t0⟩ :=
        stepBucket_no_refill (le_of_eq
          (fdiv_eq_zero_of_lt
            (mul_nonneg (show (0 : Int) ≤ t' - t0 by omega)
              (show (0 : Int) ≤ m by omega)) htw))
      rw [checkRateLimit_lookup_some hfinal, hstep',
        if_neg (show ¬(0 : Int) < 0 by omega)]
  · intro st b now hlook hbn hbm
    rw [checkRateLimit_lookup_some hlook]
    by_cases hr : 0 < ((now - b.lastRefill) * m).fdiv w
    · have hstep : stepBucket b m w now
          = ⟨min m (b.tokens + ((now - b.lastRefill) * m).fdiv w), now⟩ := by
        unfold stepBucket
        rw [if_pos hr]
      have htokpos :
          0 < min m (b.tokens + ((now - b.lastRefill) * m).fdiv w) := by
        have h1 : 1 ≤ b.tokens + ((now - b.lastRefill) * m).fdiv w := by omega
        omega
      rw [hstep, if_pos (by simpa using htokpos)]
      refine ⟨⟨min m (b.tokens + ((now - b.lastRefill) * m).fdiv w) - 1, now⟩,
        lookup_cons_self key _ _,
        (show (0 : Int) ≤ min m (b.tokens
          + ((now - b.lastRefill) * m).fdiv w) - 1 by omega),
        (show min m (b.tokens
          + ((now - b.lastRefill) * m).fdiv w) - 1 ≤ m by omega), ?_, ?_⟩
      · simp [hr]
      · simp [hr]
    · have hstep : stepBucket b m w now = b := stepBucket_no_refill (by omega)
      rw [hstep]
      by_cases ht : 0 < b.tokens
      · rw [if_pos ht]
        refine ⟨⟨b.tokens - 1, b.lastRefill⟩,
          lookup_cons_self key _ _,
          (show (0 : Int) ≤ b.tokens - 1 by omega),
          (show b.tokens - 1 ≤ m by omega), ?_, ?_⟩
        · simp [hr]
        · simp [hr]
      · rw [if_neg ht]
        refine ⟨b, lookup_cons_self key _ _, by omega, by omega, ?_, ?_⟩
        · simp [hr]
        · simp [hr, ht]
  · intro st t0 now rest hlook hwin hlen hrest
    have hrefill : m ≤ ((now - t0) * m).fdiv w := by
      apply le_fdiv_of_mul_le hw
      calc m * w = w * m := by ring
        _ ≤ (now - t0) * m := by
          apply mul_le_mul_of_nonneg_right hwin (by omega)
    have hstep : stepBucket ⟨0, t0⟩ m w now = ⟨m, now⟩ := by
      unfold stepBucket
      rw [if_pos (show (0 : Int) < ((now - t0) * m).fdiv w by omega)]
      have hmin : min m ((0 : Int) + ((now - t0) * m).fdiv w) = m := by omega
      show (⟨min m ((0 : Int) + ((now - t0) * m).fdiv w), now⟩ : Bucket)
        = ⟨m, now⟩
      rw [hmin]
    have hcall0 : checkRateLimit st key m w now
        = (⟨true, none⟩,
           (key, ⟨m - 1, now⟩) :: st.filter (fun p => p.1 ≠ key)) := by
      rw [checkRateLimit_lookup_some hlook, hstep,
        if_pos (show (0 : Int) < m by omega)]
    have hrest2 := runCalls_all_allowed key m w now hm rest
      ((key, ⟨m - 1, now⟩) :: st.filter (fun p => p.1 ≠ key)) (m - 1)
      (lookup_cons_self key _ _) (by omega) hrest
    have hrun : runCalls key m w st (now :: rest)
        = ((checkRateLimit st key m w now).1.allowed
            :: (runCalls key m w (checkRateLimit st key m w now).2 rest).1,
           (runCalls key m w (checkRateLimit st key m w now).2 rest).2) := rfl
    rw [hrun, hcall0]
    simp only [List.replicate_succ]
    rw [hrest2.1]

/-- Witness for C5: key `"k"`, `maxRequests = 2`, `windowMs = 1000`;
two calls at time 0 are allowed, a third is denied with
`retryAfter = 1`; the single-call invariant at a half-full bucket; and a
bucket emptied at time 0 allows 2 calls again at time 1000. -/
theorem rate_limiter_token_bucket_witness :
    (runCalls "k" 2 1000 [] [0, 0]).1 = List.replicate ([(0 : Int)].length + 1) true
    ∧ (checkRateLimit (runCalls "k" 2 1000 [] [0, 0]).2 "k" 2 1000 0).1
        = ⟨false, some (ceilDiv1000 1000)⟩
    ∧ 0 < ceilDiv1000 1000
    ∧ (∃ b', (checkRateLimit [("k", ⟨1, 0⟩)] "k" 2 1000 0).2.lookup "k" = some b'
        ∧ 0 ≤ b'.tokens ∧ b'.tokens ≤ 2
        ∧ b'.lastRefill
            = (if 0 < ((0 - (0 : Int)) * 2).fdiv 1000 then 0 else 0)
        ∧ b'.tokens
            + (if (checkRateLimit [("k", ⟨1, 0⟩)] "k" 2 1000 0).1.allowed
               then 1 else 0)
          = (if 0 < ((0 - (0 : Int)) * 2).fdiv 1000
             then min 2 (1 + ((0 - (0 : Int)) * 2).fdiv 1000) else 1))
    ∧ (runCalls "k" 2 1000 [("k", ⟨0, 0⟩)] [1000, 1000]).1
        = List.replicate ([(1000 : Int)].length + 1) true := by
  have h := rate_limiter_token_bucket "k" 2 1000 (by decide) (by decide)
  have ha := h.1 [] 0 0 [0] (by decide) (by decide) (by decide)
    (by decide) (by decide)
  have hb := h.2.1 [("k", ⟨1, 0⟩)] ⟨1, 0⟩ 0 (by decide) (by decide) (by decide)
  have hc := h.2.2 [("k", ⟨0, 0⟩)] 0 1000 [1000] (by decide) (by decide)
    (by decide) (by decide)
  exact ⟨ha.1, ha.2.1, ha.2.2, hb, hc⟩

-- ---------------------------------------------------------------------------
-- Claim C6 (removeMethod)
-- ---------------------------------------------------------------------------

/-- Claim C6: for every config and method type present in it,
`removeMethod` removes the matching method (the result's list is exactly
the original minus the entries of that type, so none of that type
remain); it returns null exactly when zero methods remain; if the
removed method was the default, the new default is the first remaining
method in list order; otherwise the default is unchanged. -/
theorem removeMethod_spec (config : TwoFactorConfig) (t : TwoFactorMethod)
    (_hmem : t ∈ config.methods.map MethodConfig.type) :
    (removeMethod config t = none
      ↔ config.methods.filter (fun m => m.type ≠ t) = [])
    ∧ (∀ cfg', removeMethod config t = some cfg' →
        cfg'.methods = config.methods.filter (fun m => m.type ≠ t)
        ∧ (∀ m ∈ cfg'.methods, m.type ≠ t)
        ∧ (config.defaultMethod = t →
            ∃ first rest, cfg'.methods = first :: rest
              ∧ cfg'.defaultMethod = first.type)
        ∧ (config.defaultMethod ≠ t →
            cfg'.defaultMethod = config.defaultMethod)) := by
  constructor
  · unfold removeMethod
    cases hf : config.methods.filter (fun m => m.type ≠ t) with
    | nil => simp
    | cons a rest => simp
  · intro cfg' hrm
    unfold removeMethod at hrm
    cases hf : config.methods.filter (fun m => m.type ≠ t) with
    | nil =>
      rw [hf] at hrm
      simp at hrm
    | cons a rest =>
      rw [hf] at hrm
      simp only [Option.some.injEq] at hrm
      subst hrm
      refine ⟨rfl, ?_, ?_, ?_⟩
      · intro m hm
        have hm' : m ∈ config.methods.filter (fun m => m.type ≠ t) := by
          rw [hf]
          exact hm
        simpa using List.of_mem_filter hm'
      · intro hdef
        exact ⟨a, rest, rfl, by simp [hdef]⟩
      · intro hdef
        simp [hdef]

/-- Witness for C6: the unit-test scenarios — removing `totp` from a
totp+email config keeps exactly the e-mail method (and the theorem's
default-switch clause applies); removing the sole method yields null. -/
theorem removeMethod_spec_witness :
    twofaConfigAfterW.methods
      = twofaConfigW.methods.filter (fun m => m.type ≠ TwoFactorMethod.totp)
    ∧ (removeMethod twofaConfigSoloW TwoFactorMethod.totp = none
        ↔ twofaConfigSoloW.methods.filter
            (fun m => m.type ≠ TwoFactorMethod.totp) = []) := by
  have h := removeMethod_spec twofaConfigW TwoFactorMethod.totp (by decide)
  have h2 := removeMethod_spec twofaConfigSoloW TwoFactorMethod.totp (by decide)
  exact ⟨(h.2 twofaConfigAfterW (by decide)).1, h2.1⟩

-- ---------------------------------------------------------------------------
-- Claim C7 (DPoP proof shape)
-- ---------------------------------------------------------------------------

/-- Counterexample for C7 as stated: a nonce argument *is* supplied
(the empty string, `some ""` — still a supplied argument), yet the
payload carries no `nonce` field, because the source guards with the JS
truthiness check `if (opts.nonce)`. -/
theorem dpop_nonce_iff_counterexample :
    (some "" : Option String) ≠ none
    ∧ (mkDpopPayload "u" 0 shaW
        { jwk := jwkW, method := "POST", url := "https://example.com/token",
          nonce := some "" }).nonce = none := by
  constructor
  · simp
  · rfl

/-- Claim C7 (amended): every proof consists of exactly 3 dot-separated
segments (base64url outputs of the external encoders, hence dot-free);
the header always has `alg = "ES256"` and `typ = "dpop+jwt"`; the `jti`
is exactly the per-call fresh UUID, and two calls with identical other
inputs agree on everything except `jti` and `iat`; the payload carries a
`nonce` field iff a *non-empty* nonce was supplied, and an `ath` field
iff a *non-empty* access token was supplied. -/
theorem dpop_proof_shape (encHeader : DpopHeader → List Char)
    (encPayload : DpopPayload → List Char)
    (signB64 : List Char → List Char)
    (hH : ∀ h, '.' ∉ encHeader h) (hP : ∀ p, '.' ∉ encPayload p)
    (hS : ∀ s, '.' ∉ signB64 s) :
    (∀ (jti : String) (iat : Int) (sha : String → String) (opts : DpopOpts),
      splitOnChar '.'
          (createDpopProof encHeader encPayload signB64 jti iat sha opts)
        = [encHeader (mkDpopHeader opts),
           encPayload (mkDpopPayload jti iat sha opts),
           signB64 (encHeader (mkDpopHeader opts)
             ++ '.' :: encPayload (mkDpopPayload jti iat sha opts))])
    ∧ (∀ opts : DpopOpts,
        (mkDpopHeader opts).alg = "ES256"
        ∧ (mkDpopHeader opts).typ = "dpop+jwt")
    ∧ (∀ (jti : String) (iat : Int) (sha : String → String)
        (opts : DpopOpts), (mkDpopPayload jti iat sha opts).jti = jti)
    ∧ (∀ (jti1 jti2 : String) (iat1 iat2 : Int) (sha : String → String)
        (opts : DpopOpts),
        mkDpopPayload jti1 iat1 sha opts
          = { mkDpopPayload jti2 iat2 sha opts with
              jti := jti1, iat := iat1 })
    ∧ (∀ (jti : String) (iat : Int) (sha : String → String)
        (opts : DpopOpts),
        ((mkDpopPayload jti iat sha opts).nonce ≠ none
          ↔ ∃ n, opts.nonce = some n ∧ n ≠ "")
        ∧ ((mkDpopPayload jti iat sha opts).ath ≠ none
          ↔ ∃ tok, opts.accessToken = some tok ∧ tok ≠ "")) := by
  refine ⟨?_, fun _ => ⟨rfl, rfl⟩, fun _ _ _ _ => rfl, fun _ _ _ _ _ _ => rfl,
    ?_⟩
  · intro jti iat sha opts
    rw [createDpopProof, List.append_assoc, List.cons_append]
    rw [splitOnChar_append_cons _ (hH _), splitOnChar_append_cons _ (hP _),
      splitOnChar_no_sep (hS _)]
  · intro jti iat sha opts
    constructor
    · unfold mkDpopPayload
      cases hn : opts.nonce with
      | none => simp
      | some n =>
        by_cases he : n = "" <;> simp [he]
    · unfold mkDpopPayload
      cases hn : opts.accessToken with
      | none => simp
      | some tok =>
        by_cases he : tok = "" <;> simp [he]

/-- Witness for C7 on concrete encoders and options. -/
theorem dpop_proof_shape_witness :
    splitOnChar '.'
        (createDpopProof hdrEncW pldEncW sigEncW "u" 0 shaW dpopOptsW)
      = [hdrEncW (mkDpopHeader dpopOptsW),
         pldEncW (mkDpopPayload "u" 0 shaW dpopOptsW),
         sigEncW (hdrEncW (mkDpopHeader dpopOptsW)
           ++ '.' :: pldEncW (mkDpopPayload "u" 0 shaW dpopOptsW))]
    ∧ (mkDpopHeader dpopOptsW).alg = "ES256"
    ∧ (mkDpopHeader dpopOptsW).typ = "dpop+jwt"
    ∧ (mkDpopPayload "u" 0 shaW dpopOptsW).jti = "u"
    ∧ mkDpopPayload "u" 7 shaW dpopOptsW
        = { mkDpopPayload "v" 9 shaW dpopOptsW with jti := "u", iat := 7 }
    ∧ ((mkDpopPayload "u" 0 shaW dpopOptsW).nonce ≠ none
        ↔ ∃ n, dpopOptsW.nonce = some n ∧ n ≠ "") := by
  have h := dpop_proof_shape hdrEncW pldEncW sigEncW
    (fun h => by unfold hdrEncW; decide)
    (fun p => by unfold pldEncW; decide)
    (fun s => by unfold sigEncW; decide)
  exact ⟨h.1 "u" 0 shaW dpopOptsW, (h.2.1 dpopOptsW).1, (h.2.1 dpopOptsW).2,
    h.2.2.1 "u" 0 shaW dpopOptsW, h.2.2.2.1 "u" "v" 7 9 shaW dpopOptsW,
    (h.2.2.2.2 "u" 0 shaW dpopOptsW).1⟩

-- ---------------------------------------------------------------------------
-- Claim C10 (daily-spend atomicity of the transaction route)
-- ---------------------------------------------------------------------------

/-- Claim C10: on every non-success outcome of the transaction POST
handler (unauthenticated, invalid CSRF, rate-limited, unconfigured
wallet, invalid JSON/address/amount, per-transaction or daily limit,
wallet failure) the stored daily totals are unchanged; the totals change
only on the success path, where the wallet responded ok and the change
is exactly `addDailyTotal` of the session DID by the transaction
amount. -/
theorem tx_daily_spend_atomicity (deps : TxDeps) (rl : RLStore)
    (totals : DailyTotals) :
    ((txPOST deps rl totals).1 ≠ TxResponse.success →
      (txPOST deps rl totals).2.2 = totals)
    ∧ ((txPOST deps rl totals).1 = TxResponse.success →
      deps.walletOk = true
      ∧ ∃ s q, deps.session = some s
        ∧ (txPOST deps rl totals).2.2
            = addDailyTotal deps.today totals s.userDid q) := by
  unfold txPOST
  repeat' split
  all_goals try exact ⟨fun _ => rfl, fun h => nomatch h⟩
  exact ⟨fun hns => absurd rfl hns,
    fun _ => ⟨by assumption, _, _, by assumption, rfl⟩⟩

/-- Witness for C10: an unauthenticated request leaves the daily totals
untouched. -/
theorem tx_daily_spend_atomicity_witness :
    (txPOST txDepsW [] []).2.2 = [] :=
  (tx_daily_spend_atomicity txDepsW [] []).1 (by decide)
